import Mathlib

/-!
Shallow embedding of the session-management and persistence core of the
repository (the `UserSessionManager` session pool of
`src/telegram/user/telegram_session_manager.py` and the `PostgresStorage`
directory storage engine of `src/telegram/user/storage/telegram_storage.py`
together with the SQLModel table helpers of
`src/telegram/user/storage/storage_schema.py`).

Modelling conventions:
- Python `dict` / `OrderedDict` values are modelled as association lists
  (`List (κ × α)`) with unique keys; insertion of an existing key replaces
  the value in place (preserving position, as CPython dicts do) and
  insertion of a fresh key appends at the end.  `OrderedDict.move_to_end`
  moves an entry to the end, `popitem(last=False)` pops the front.
- Wall-clock instants (`datetime.now()`, `time.time()`) are threaded
  through the operations as explicit `Nat` parameters (epoch seconds).
- `await`ed I/O that can raise is modelled with explicit result values:
  a raised exception becomes an error constructor, and oracles such as
  `startOk` say whether an external call (session start, database write)
  succeeds.
- Database tables are modelled as lists of rows, so that "exactly one
  row" and "no duplicate row" are meaningful statements.
-/

/-! ## Association-list helpers (Python dict semantics) -/

/-- Keys of an association list, in order. -/
def keysOf {κ α : Type} (l : List (κ × α)) : List κ :=
  l.map Prod.fst

/-- Python `d[k]` lookup returning `none` when absent (`k in d` test and
`d.get(k)`). -/
def lookupA {κ α : Type} [DecidableEq κ] : List (κ × α) → κ → Option α
  | [], _ => none
  | (k, v) :: rest, a => if k = a then some v else lookupA rest a

/-- Python `d[k] = v`: replace in place when the key is present (CPython
dicts keep the original position), append otherwise. -/
def dictSet {κ α : Type} [DecidableEq κ] : List (κ × α) → κ → α → List (κ × α)
  | [], k, v => [(k, v)]
  | (a, b) :: rest, k, v =>
    if a = k then (k, v) :: rest else (a, b) :: dictSet rest k v

/-- Python `del d[k]` (a no-op here when the key is absent; the embedded
code only deletes keys it has checked or that the invariant guarantees). -/
def dictDel {κ α : Type} [DecidableEq κ] (l : List (κ × α)) (k : κ) :
    List (κ × α) :=
  l.filter (fun p => p.1 ≠ k)

/-- Python `OrderedDict.move_to_end(k)`; identity when the key is absent
(the source only calls it after a membership check). -/
def moveToEnd {κ α : Type} [DecidableEq κ] (l : List (κ × α)) (k : κ) :
    List (κ × α) :=
  match lookupA l k with
  | none => l
  | some v => dictDel l k ++ [(k, v)]

theorem lookupA_some_mem {κ α : Type} [DecidableEq κ] {l : List (κ × α)}
    {k : κ} {v : α} (h : lookupA l k = some v) : k ∈ keysOf l := by
  induction l with
  | nil => simp [lookupA] at h
  | cons p rest ih =>
    obtain ⟨a, b⟩ := p
    by_cases hk : a = k
    · subst hk; simp [keysOf]
    · simp only [lookupA, if_neg hk] at h
      simp [keysOf] at ih ⊢
      exact Or.inr (ih h)

theorem lookupA_none_not_mem {κ α : Type} [DecidableEq κ] {l : List (κ × α)}
    {k : κ} (h : lookupA l k = none) : k ∉ keysOf l := by
  induction l with
  | nil => simp [keysOf]
  | cons p rest ih =>
    obtain ⟨a, b⟩ := p
    by_cases hk : a = k
    · subst hk; simp [lookupA] at h
    · simp only [lookupA, if_neg hk] at h
      simp [keysOf] at ih ⊢
      exact ⟨fun he => hk he.symm, ih h⟩

theorem mem_keysOf_dictSet {κ α : Type} [DecidableEq κ]
    (l : List (κ × α)) (k : κ) (v : α) (o : κ) :
    o ∈ keysOf (dictSet l k v) ↔ o = k ∨ o ∈ keysOf l := by
  induction l with
  | nil => simp [dictSet, keysOf]
  | cons p rest ih =>
    obtain ⟨a, b⟩ := p
    by_cases h : a = k
    · subst h
      have hset : dictSet ((a, b) :: rest) a v = (a, v) :: rest := by
        simp [dictSet]
      rw [hset]
      simp [keysOf]
    · simp only [dictSet, if_neg h, keysOf, List.map_cons, List.mem_cons]
      simp only [keysOf] at ih
      rw [ih]
      tauto

theorem keysOf_dictSet_of_mem {κ α : Type} [DecidableEq κ]
    {l : List (κ × α)} {k : κ} (hk : k ∈ keysOf l) (v : α) :
    keysOf (dictSet l k v) = keysOf l := by
  induction l with
  | nil => simp [keysOf] at hk
  | cons p rest ih =>
    obtain ⟨a, b⟩ := p
    by_cases h : a = k
    · subst h
      simp [dictSet, keysOf]
    · simp only [dictSet, if_neg h, keysOf, List.map_cons]
      simp only [keysOf] at ih
      have hk' : k ∈ List.map Prod.fst rest := by
        simp [keysOf] at hk
        rcases hk with h' | h'
        · exact absurd h'.symm h
        · rcases h' with ⟨x, hx⟩
          exact List.mem_map_of_mem Prod.fst hx
      rw [ih hk']

theorem nodup_keysOf_dictSet {κ α : Type} [DecidableEq κ]
    {l : List (κ × α)} (h : (keysOf l).Nodup) (k : κ) (v : α) :
    (keysOf (dictSet l k v)).Nodup := by
  induction l with
  | nil => simp [dictSet, keysOf]
  | cons p rest ih =>
    obtain ⟨a, b⟩ := p
    simp only [keysOf, List.map_cons, List.nodup_cons] at h
    by_cases hak : a = k
    · subst hak
      simpa [dictSet, keysOf] using h
    · simp only [dictSet, if_neg hak, keysOf, List.map_cons, List.nodup_cons]
      refine ⟨?_, ih h.2⟩
      intro hmem
      rcases (mem_keysOf_dictSet rest k v a).1 hmem with h' | h'
      · exact hak h'
      · exact h.1 h'

theorem mem_keysOf_dictDel {κ α : Type} [DecidableEq κ]
    (l : List (κ × α)) (k : κ) (o : κ) :
    o ∈ keysOf (dictDel l k) ↔ o ∈ keysOf l ∧ o ≠ k := by
  simp only [dictDel, keysOf, List.mem_map]
  constructor
  · rintro ⟨p, hp, rfl⟩
    rw [List.mem_filter] at hp
    refine ⟨⟨p, hp.1, rfl⟩, by simpa using hp.2⟩
  · rintro ⟨⟨p, hp, rfl⟩, hne⟩
    exact ⟨p, List.mem_filter.2 ⟨hp, by simpa using hne⟩, rfl⟩

theorem nodup_keysOf_dictDel {κ α : Type} [DecidableEq κ]
    {l : List (κ × α)} (h : (keysOf l).Nodup) (k : κ) :
    (keysOf (dictDel l k)).Nodup := by
  simp only [dictDel, keysOf] at *
  exact (List.Sublist.map Prod.fst (List.filter_sublist l)).nodup h

theorem dictDel_of_not_mem {κ α : Type} [DecidableEq κ]
    {l : List (κ × α)} {k : κ} (h : k ∉ keysOf l) : dictDel l k = l := by
  apply List.filter_eq_self.2
  intro p hp
  simp only [decide_eq_true_eq]
  intro hk
  exact h (hk ▸ List.mem_map_of_mem Prod.fst hp)

theorem mem_keysOf_moveToEnd {κ α : Type} [DecidableEq κ]
    (l : List (κ × α)) (k : κ) (o : κ) :
    o ∈ keysOf (moveToEnd l k) ↔ o ∈ keysOf l := by
  unfold moveToEnd
  cases hlk : lookupA l k with
  | none => rfl
  | some v =>
    have hk := lookupA_some_mem hlk
    simp only [keysOf, List.map_append]
    rw [List.mem_append]
    constructor
    · rintro (h | h)
      · exact ((mem_keysOf_dictDel l k o).1 h).1
      · simp [keysOf] at h
        subst h
        exact hk
    · intro h
      by_cases ho : o = k
      · subst ho; right; simp [keysOf]
      · left; exact (mem_keysOf_dictDel l k o).2 ⟨h, ho⟩

theorem nodup_keysOf_moveToEnd {κ α : Type} [DecidableEq κ]
    {l : List (κ × α)} (h : (keysOf l).Nodup) (k : κ) :
    (keysOf (moveToEnd l k)).Nodup := by
  unfold moveToEnd
  cases hlk : lookupA l k with
  | none => exact h
  | some v =>
    simp only [keysOf, List.map_append]
    refine List.Nodup.append (nodup_keysOf_dictDel h k) (by simp) ?_
    intro a ha hb
    simp [keysOf] at hb
    exact ((mem_keysOf_dictDel l k a).1 ha).2 hb

theorem lookupA_dictSet_self {κ α : Type} [DecidableEq κ]
    (l : List (κ × α)) (k : κ) (v : α) : lookupA (dictSet l k v) k = some v := by
  induction l with
  | nil => simp [dictSet, lookupA]
  | cons p rest ih =>
    obtain ⟨a, b⟩ := p
    by_cases h : a = k
    · subst h; simp [dictSet, lookupA]
    · simp only [dictSet, if_neg h, lookupA, if_neg h]
      exact ih

theorem lookupA_dictSet_ne {κ α : Type} [DecidableEq κ]
    (l : List (κ × α)) (k : κ) (v : α) (o : κ) (ho : o ≠ k) :
    lookupA (dictSet l k v) o = lookupA l o := by
  induction l with
  | nil =>
    simp only [dictSet, lookupA]
    rw [if_neg (fun h => ho (Eq.symm h))]
  | cons p rest ih =>
    obtain ⟨a, b⟩ := p
    by_cases h : a = k
    · subst h
      simp only [dictSet, if_pos rfl, lookupA]
      rw [if_neg (fun h => ho h.symm), if_neg (fun h => ho h.symm)]
    · simp only [dictSet, if_neg h, lookupA]
      by_cases hao : a = o
      · simp [hao]
      · rw [if_neg hao, if_neg hao]
        exact ih

theorem dictSet_ne_nil {κ α : Type} [DecidableEq κ]
    (l : List (κ × α)) (k : κ) (v : α) : dictSet l k v ≠ [] := by
  cases l with
  | nil => simp [dictSet]
  | cons p rest =>
    obtain ⟨a, b⟩ := p
    by_cases h : a = k
    · simp [dictSet, if_pos h]
    · simp [dictSet, if_neg h]

/-! ## Session pool (`UserSessionManager`, telegram_session_manager.py) -/

/-- Stored session credentials, the fields of a `TelegramSessions` row that
`get_or_create_session` reads to rebuild a session (`dc_id`, `auth_key`). -/
structure SessionCred where
  dc_id : Int
  auth_key : List Nat
deriving DecidableEq, Repr

/-- An in-memory `TelegramUser` protocol-session object, as built by
`TelegramUser.create(dc_id, auth_key, owner_id)`. -/
structure TelegramUser where
  dc_id : Int
  auth_key : List Nat
  owner_id : Int
deriving DecidableEq, Repr

/-- In-memory state of `UserSessionManager`: the `_sessions` ordered
registry (front = least recently used), the `_last_access` recency map and
the `_max_sessions` capacity bound.  The per-tenant lock map and the
cleanup task handle carry no session bookkeeping and are not modelled. -/
structure ManagerState where
  sessions : List (Int × TelegramUser)
  last_access : List (Int × Nat)
  max_sessions : Nat
deriving DecidableEq, Repr

/-- Errors a pool operation can surface: the "No session found for owner"
assertion raised when the credential row is absent (the spec's
`NotFoundError`), and a failure of `session.start()` (the spec's
`StartupError`). -/
inductive PoolError
  | notFound
  | startFailed
deriving DecidableEq, Repr

/-- Embedding of `UserSessionManager.get_or_create_session`.  `creds` is
the credential table read by `TelegramSessions.get`, `startOk` says
whether `user_session.start()` succeeds for an owner, and `now` is
`datetime.now()`.  On a registry hit the recency is refreshed and the
entry moved to the most-recently-used end; on a miss the session is
rebuilt from credentials, started and cached.  Note: the source inserts
without any capacity check or eviction on this path. -/
def get_or_create_session (creds : Int → Option SessionCred)
    (startOk : Int → Bool) (now : Nat) (owner_id : Int) (st : ManagerState) :
    Except PoolError TelegramUser × ManagerState :=
  match lookupA st.sessions owner_id with
  | some sess =>
    (.ok sess,
     { st with last_access := dictSet st.last_access owner_id now,
               sessions := moveToEnd st.sessions owner_id })
  | none =>
    match creds owner_id with
    | none => (.error .notFound, st)
    | some c =>
      let user : TelegramUser := ⟨c.dc_id, c.auth_key, owner_id⟩
      if startOk owner_id then
        (.ok user,
         { st with sessions := dictSet st.sessions owner_id user,
                   last_access := dictSet st.last_access owner_id now })
      else
        (.error .startFailed, st)

/-- Embedding of `UserSessionManager._evict_lru_session`: pop the
least-recently-used entry (front of the ordered registry), stop it —
stop errors are caught and logged, so they never block the bookkeeping —
and delete its recency entry.  `popitem` on an empty registry raises
before mutating anything, leaving the state unchanged. -/
def evict_lru_session (st : ManagerState) : ManagerState :=
  match st.sessions with
  | [] => st
  | (owner_id, _) :: rest =>
    { st with sessions := rest,
              last_access := dictDel st.last_access owner_id }

/-- Embedding of `UserSessionManager.create_new_session`: evict the LRU
entry when at capacity, then start and cache the new session.  A start
failure propagates after the eviction already happened. -/
def create_new_session (startOk : Int → Bool) (now : Nat) (owner_id : Int)
    (dc_id : Int) (auth_key : List Nat) (st : ManagerState) :
    Except PoolError TelegramUser × ManagerState :=
  let user : TelegramUser := ⟨dc_id, auth_key, owner_id⟩
  let st1 := if st.sessions.length ≥ st.max_sessions then evict_lru_session st else st
  if startOk owner_id then
    (.ok user,
     { st1 with sessions := dictSet st1.sessions owner_id user,
                last_access := dictSet st1.last_access owner_id now })
  else
    (.error .startFailed, st1)

/-- Embedding of `UserSessionManager._remove_session`: pop the registry
entry if resident (stop errors are caught), then delete the recency entry
if present. -/
def remove_session (owner_id : Int) (st : ManagerState) : ManagerState :=
  let st1 :=
    if owner_id ∈ keysOf st.sessions
    then { st with sessions := dictDel st.sessions owner_id }
    else st
  if owner_id ∈ keysOf st1.last_access
  then { st1 with last_access := dictDel st1.last_access owner_id }
  else st1

/-- Embedding of `UserSessionManager.stop_session` (a `_remove_session`
under the global lock). -/
def stop_session (owner_id : Int) (st : ManagerState) : ManagerState :=
  remove_session owner_id st

/-- Embedding of `UserSessionManager.stop_all_sessions`: remove every
owner in the registry snapshot (the cleanup-task cancellation and lock
clearing carry no registry bookkeeping). -/
def stop_all_sessions (st : ManagerState) : ManagerState :=
  (keysOf st.sessions).foldl (fun s o => remove_session o s) st

/-- Embedding of `UserSessionManager.extend_session_ttl`: refresh recency
and LRU position for a resident session, report `false` otherwise. -/
def extend_session_ttl (now : Nat) (owner_id : Int) (st : ManagerState) :
    Bool × ManagerState :=
  if owner_id ∈ keysOf st.sessions then
    (true,
     { st with last_access := dictSet st.last_access owner_id now,
               sessions := moveToEnd st.sessions owner_id })
  else
    (false, st)

/-- Embedding of `UserSessionManager._cleanup_expired_sessions`: collect
the owners whose last access is older than `session_ttl` (`now -
last_access > ttl`, a negative timedelta never exceeding a nonnegative
ttl, matching truncated `Nat` subtraction) and remove each. -/
def cleanup_expired_sessions (now : Nat) (session_ttl : Nat) (st : ManagerState) :
    ManagerState :=
  let expired := (st.last_access.filter (fun p => now - p.2 > session_ttl)).map Prod.fst
  expired.foldl (fun s o => remove_session o s) st

/-- Embedding of `UserSessionManager.load_all_sessions`: build a
`TelegramUser` for every credential row (rows whose `TelegramUser.create`
raises are skipped), start them all with `return_exceptions=True` —
start failures do not prevent caching — and cache every built session
with a fresh recency stamp. -/
def load_all_sessions (rows : List (Int × SessionCred)) (createOk : Int → Bool)
    (now : Nat) (st : ManagerState) : ManagerState :=
  let users := (rows.filter (fun r => createOk r.1)).map
    (fun r => (r.1, (⟨r.2.dc_id, r.2.auth_key, r.1⟩ : TelegramUser)))
  users.foldl
    (fun s ou =>
      { s with sessions := dictSet s.sessions ou.1 ou.2,
               last_access := dictSet s.last_access ou.1 now }) st

/-- Embedding of `UserSessionManager.get_session_info`: a copy of the
recency map. -/
def get_session_info (st : ManagerState) : List (Int × Nat) :=
  st.last_access

/-- Embedding of `UserSessionManager.get_active_session_count`. -/
def get_active_session_count (st : ManagerState) : Nat :=
  st.sessions.length

/-! ## Pool operations as a step relation, and the registry/recency
well-formedness invariant -/

/-- One public or internal `UserSessionManager` operation, with its
oracles (credential table, start/create success, clock) baked in. -/
inductive PoolOp where
  | opGetOrCreate (creds : Int → Option SessionCred) (startOk : Int → Bool)
      (now : Nat) (owner_id : Int)
  | opCreateNew (startOk : Int → Bool) (now : Nat) (owner_id dc_id : Int)
      (auth_key : List Nat)
  | opStop (owner_id : Int)
  | opStopAll
  | opExtendTtl (now : Nat) (owner_id : Int)
  | opEvictLru
  | opCleanup (now ttl : Nat)
  | opLoadAll (rows : List (Int × SessionCred)) (createOk : Int → Bool) (now : Nat)

/-- The manager state reached after one operation (result values
discarded). -/
def poolStep : PoolOp → ManagerState → ManagerState
  | .opGetOrCreate creds startOk now o, st => (get_or_create_session creds startOk now o st).2
  | .opCreateNew startOk now o dc ak, st => (create_new_session startOk now o dc ak st).2
  | .opStop o, st => stop_session o st
  | .opStopAll, st => stop_all_sessions st
  | .opExtendTtl now o, st => (extend_session_ttl now o st).2
  | .opEvictLru, st => evict_lru_session st
  | .opCleanup now ttl, st => cleanup_expired_sessions now ttl st
  | .opLoadAll rows createOk now, st => load_all_sessions rows createOk now st

/-- Well-formedness of the pool bookkeeping: registry and recency map
have duplicate-free key lists (they model Python dicts) and the same key
set — every resident session has a recency stamp and vice versa. -/
def poolWf (st : ManagerState) : Prop :=
  (keysOf st.sessions).Nodup ∧ (keysOf st.last_access).Nodup ∧
  (∀ o ∈ keysOf st.sessions, o ∈ keysOf st.last_access) ∧
  (∀ o ∈ keysOf st.last_access, o ∈ keysOf st.sessions)

theorem remove_session_sessions (o : Int) (st : ManagerState) :
    (remove_session o st).sessions = dictDel st.sessions o := by
  unfold remove_session
  by_cases h1 : o ∈ keysOf st.sessions
  · rw [if_pos h1]
    by_cases h2 : o ∈ keysOf st.last_access <;> simp [h2]
  · rw [if_neg h1, dictDel_of_not_mem h1]
    by_cases h2 : o ∈ keysOf st.last_access <;> simp [h2]

theorem remove_session_last_access (o : Int) (st : ManagerState) :
    (remove_session o st).last_access = dictDel st.last_access o := by
  unfold remove_session
  by_cases h1 : o ∈ keysOf st.sessions
  · rw [if_pos h1]
    by_cases h2 : o ∈ keysOf st.last_access
    · simp [h2]
    · simp [h2, dictDel_of_not_mem h2]
  · rw [if_neg h1]
    by_cases h2 : o ∈ keysOf st.last_access
    · simp [h2]
    · simp [h2, dictDel_of_not_mem h2]

theorem remove_session_max (o : Int) (st : ManagerState) :
    (remove_session o st).max_sessions = st.max_sessions := by
  unfold remove_session
  by_cases h1 : o ∈ keysOf st.sessions <;>
    by_cases h2 : o ∈ keysOf st.last_access <;> simp [h1, h2]

theorem poolWf_remove_session (o : Int) {st : ManagerState} (h : poolWf st) :
    poolWf (remove_session o st) := by
  obtain ⟨h1, h2, h3, h4⟩ := h
  refine ⟨?_, ?_, ?_, ?_⟩
  · rw [remove_session_sessions]; exact nodup_keysOf_dictDel h1 o
  · rw [remove_session_last_access]; exact nodup_keysOf_dictDel h2 o
  · intro x hx
    rw [remove_session_sessions] at hx
    rw [remove_session_last_access]
    obtain ⟨hm, hne⟩ := (mem_keysOf_dictDel _ _ _).1 hx
    exact (mem_keysOf_dictDel _ _ _).2 ⟨h3 x hm, hne⟩
  · intro x hx
    rw [remove_session_last_access] at hx
    rw [remove_session_sessions]
    obtain ⟨hm, hne⟩ := (mem_keysOf_dictDel _ _ _).1 hx
    exact (mem_keysOf_dictDel _ _ _).2 ⟨h4 x hm, hne⟩

theorem poolWf_insert_both {st : ManagerState} (h : poolWf st)
    (o : Int) (u : TelegramUser) (now : Nat) :
    poolWf { st with sessions := dictSet st.sessions o u,
                     last_access := dictSet st.last_access o now } := by
  obtain ⟨h1, h2, h3, h4⟩ := h
  refine ⟨nodup_keysOf_dictSet h1 o u, nodup_keysOf_dictSet h2 o now, ?_, ?_⟩
  · intro x hx
    rcases (mem_keysOf_dictSet _ _ _ _).1 hx with rfl | hm
    · exact (mem_keysOf_dictSet _ _ _ _).2 (Or.inl rfl)
    · exact (mem_keysOf_dictSet _ _ _ _).2 (Or.inr (h3 x hm))
  · intro x hx
    rcases (mem_keysOf_dictSet _ _ _ _).1 hx with rfl | hm
    · exact (mem_keysOf_dictSet _ _ _ _).2 (Or.inl rfl)
    · exact (mem_keysOf_dictSet _ _ _ _).2 (Or.inr (h4 x hm))

theorem poolWf_touch {st : ManagerState} (h : poolWf st)
    (o : Int) (now : Nat) (hmem : o ∈ keysOf st.sessions) :
    poolWf { st with sessions := moveToEnd st.sessions o,
                     last_access := dictSet st.last_access o now } := by
  obtain ⟨h1, h2, h3, h4⟩ := h
  refine ⟨nodup_keysOf_moveToEnd h1 o, nodup_keysOf_dictSet h2 o now, ?_, ?_⟩
  · intro x hx
    rw [mem_keysOf_moveToEnd] at hx
    exact (mem_keysOf_dictSet _ _ _ _).2 (Or.inr (h3 x hx))
  · intro x hx
    rw [mem_keysOf_moveToEnd]
    rcases (mem_keysOf_dictSet _ _ _ _).1 hx with rfl | hm
    · exact hmem
    · exact h4 x hm

theorem poolWf_evict_lru {st : ManagerState} (h : poolWf st) :
    poolWf (evict_lru_session st) := by
  obtain ⟨h1, h2, h3, h4⟩ := h
  cases hs : st.sessions with
  | nil =>
    have he : evict_lru_session st = st := by
      unfold evict_lru_session; rw [hs]
    rw [he]
    exact ⟨h1, h2, h3, h4⟩
  | cons p rest =>
    obtain ⟨a, u⟩ := p
    have he : evict_lru_session st =
        { st with sessions := rest, last_access := dictDel st.last_access a } := by
      unfold evict_lru_session; rw [hs]
    rw [he]
    rw [hs] at h1 h3 h4
    simp only [keysOf, List.map_cons, List.nodup_cons] at h1
    refine ⟨h1.2, nodup_keysOf_dictDel h2 a, ?_, ?_⟩
    · intro x hx
      have hxs : x ∈ keysOf ((a, u) :: rest) := by
        simp [keysOf] at hx ⊢
        exact Or.inr hx
      have hxa : x ≠ a := by
        intro hxa
        subst hxa
        exact h1.1 hx
      exact (mem_keysOf_dictDel _ _ _).2 ⟨h3 x hxs, hxa⟩
    · intro x hx
      obtain ⟨hm, hne⟩ := (mem_keysOf_dictDel _ _ _).1 hx
      have := h4 x hm
      simp [keysOf] at this ⊢
      rcases this with h' | h'
      · exact absurd h' hne
      · exact h'

theorem poolWf_get_or_create {st : ManagerState} (h : poolWf st)
    (creds : Int → Option SessionCred) (startOk : Int → Bool)
    (now : Nat) (o : Int) :
    poolWf (get_or_create_session creds startOk now o st).2 := by
  unfold get_or_create_session
  cases hlk : lookupA st.sessions o with
  | some sess =>
    exact poolWf_touch h o now (lookupA_some_mem hlk)
  | none =>
    cases creds o with
    | none => exact h
    | some c =>
      cases hstart : startOk o with
      | true =>
        simp only [hstart, if_true]
        exact poolWf_insert_both h o _ now
      | false =>
        simp only [hstart, Bool.false_eq_true, if_false]
        exact h

theorem poolWf_create_new {st : ManagerState} (h : poolWf st)
    (startOk : Int → Bool) (now : Nat) (o dc : Int) (ak : List Nat) :
    poolWf (create_new_session startOk now o dc ak st).2 := by
  unfold create_new_session
  have h1 : poolWf (if st.sessions.length ≥ st.max_sessions
      then evict_lru_session st else st) := by
    by_cases hc : st.sessions.length ≥ st.max_sessions
    · rw [if_pos hc]; exact poolWf_evict_lru h
    · rw [if_neg hc]; exact h
  cases hstart : startOk o with
  | true =>
    simp only [hstart, if_true]
    exact poolWf_insert_both h1 o _ now
  | false =>
    simp only [hstart, Bool.false_eq_true, if_false]
    exact h1

theorem poolWf_foldl_remove (l : List Int) {st : ManagerState} (h : poolWf st) :
    poolWf (l.foldl (fun s o => remove_session o s) st) := by
  induction l generalizing st with
  | nil => exact h
  | cons a rest ih =>
    exact ih (poolWf_remove_session a h)

theorem poolWf_load_all (rows : List (Int × SessionCred))
    (createOk : Int → Bool) (now : Nat) {st : ManagerState} (h : poolWf st) :
    poolWf (load_all_sessions rows createOk now st) := by
  unfold load_all_sessions
  generalize ((rows.filter (fun r => createOk r.1)).map
    (fun r => (r.1, (⟨r.2.dc_id, r.2.auth_key, r.1⟩ : TelegramUser)))) = users
  induction users generalizing st with
  | nil => exact h
  | cons p rest ih =>
    exact ih (poolWf_insert_both h p.1 p.2 now)

theorem poolWf_extend_ttl {st : ManagerState} (h : poolWf st)
    (now : Nat) (o : Int) : poolWf (extend_session_ttl now o st).2 := by
  unfold extend_session_ttl
  by_cases hmem : o ∈ keysOf st.sessions
  · rw [if_pos hmem]
    exact poolWf_touch h o now hmem
  · rw [if_neg hmem]
    exact h

instance poolWfDecidable (st : ManagerState) : Decidable (poolWf st) := by
  unfold poolWf
  exact inferInstance

/-- C10: after every `UserSessionManager` operation (get-or-create,
create-new, stop, stop-all, extend-TTL, LRU eviction, TTL cleanup, bulk
load), the key set of the resident-session registry equals the key set of
the last-access map, so every resident session has a recency timestamp
and `get_session_info` lists exactly the resident tenants.  Stop failures
during eviction or removal are caught in the source before the
bookkeeping, so the modelled state transition is the same whether or not
`session.stop()` raises, and the invariant is preserved regardless. -/
theorem c10_pool_registry_recency_sync (op : PoolOp) (st : ManagerState)
    (h : poolWf st) :
    poolWf (poolStep op st) ∧
    (∀ o : Int, o ∈ keysOf (get_session_info (poolStep op st)) ↔
      o ∈ keysOf (poolStep op st).sessions) := by
  have hw : poolWf (poolStep op st) := by
    cases op with
    | opGetOrCreate creds startOk now o => exact poolWf_get_or_create h creds startOk now o
    | opCreateNew startOk now o dc ak => exact poolWf_create_new h startOk now o dc ak
    | opStop o => exact poolWf_remove_session o h
    | opStopAll => exact poolWf_foldl_remove _ h
    | opExtendTtl now o => exact poolWf_extend_ttl h now o
    | opEvictLru => exact poolWf_evict_lru h
    | opCleanup now ttl => exact poolWf_foldl_remove _ h
    | opLoadAll rows createOk now => exact poolWf_load_all rows createOk now h
  exact ⟨hw, fun o => ⟨fun ho => hw.2.2.2 o ho, fun ho => hw.2.2.1 o ho⟩⟩

/-- Witness for C10: a concrete well-formed pool state and operation. -/
theorem c10_pool_registry_recency_sync_witness :
    poolWf ⟨[(7, ⟨2, [], 7⟩)], [(7, 40)], 2⟩ ∧
    poolWf (poolStep (.opStop 7) ⟨[(7, ⟨2, [], 7⟩)], [(7, 40)], 2⟩) :=
  ⟨by decide, (c10_pool_registry_recency_sync (.opStop 7) ⟨[(7, ⟨2, [], 7⟩)], [(7, 40)], 2⟩ (by decide)).1⟩

/-- C1 (failing-input evaluation): with `max_sessions = 1` and tenant `1`
resident, `get_or_create_session` for non-resident tenant `2` — whose
credentials exist — inserts a second session without evicting anything:
the registry afterwards holds `max_sessions + 1` sessions and tenant `1`
is still resident.  The source's miss path has no capacity check, so the
claimed LRU eviction in `get_or_create_session` does not happen. -/
theorem c1_get_or_create_exceeds_capacity :
    (get_or_create_session (fun o => if o = 2 then some ⟨4, [9]⟩ else none)
        (fun _ => true) 100 2
        ⟨[(1, ⟨1, [], 1⟩)], [(1, 50)], 1⟩).2.sessions.length = 1 + 1 ∧
    1 ∈ keysOf (get_or_create_session (fun o => if o = 2 then some ⟨4, [9]⟩ else none)
        (fun _ => true) 100 2
        ⟨[(1, ⟨1, [], 1⟩)], [(1, 50)], 1⟩).2.sessions ∧
    2 ∈ keysOf (get_or_create_session (fun o => if o = 2 then some ⟨4, [9]⟩ else none)
        (fun _ => true) 100 2
        ⟨[(1, ⟨1, [], 1⟩)], [(1, 50)], 1⟩).2.sessions := by
  decide

/-- C6: when no credential row exists for the tenant and no session is
resident, `get_or_create_session` fails with the not-found error (the
"No session found for owner" assertion, the spec's `NotFoundError`) and
returns the pool state unchanged: nothing is inserted into the registry
or the recency map. -/
theorem c6_get_or_create_not_found (creds : Int → Option SessionCred)
    (startOk : Int → Bool) (now : Nat) (owner_id : Int) (st : ManagerState)
    (hres : lookupA st.sessions owner_id = none)
    (hcred : creds owner_id = none) :
    get_or_create_session creds startOk now owner_id st = (.error .notFound, st) := by
  simp [get_or_create_session, hres, hcred]

/-- Witness for C6 at a concrete empty pool and credential table. -/
theorem c6_get_or_create_not_found_witness :
    lookupA (⟨[], [], 3⟩ : ManagerState).sessions 5 = none ∧
    get_or_create_session (fun _ => none) (fun _ => true) 11 5 ⟨[], [], 3⟩ =
      (.error .notFound, ⟨[], [], 3⟩) :=
  ⟨rfl, c6_get_or_create_not_found (fun _ => none) (fun _ => true) 11 5 ⟨[], [], 3⟩ rfl rfl⟩

/-! ## Directory storage engine (`PostgresStorage`, telegram_storage.py)
and its SQLModel tables (storage_schema.py) -/

/-- A `telegram_peers` row: composite primary key `(owner_id, id)`,
`last_update_on` defaults to the construction instant. -/
structure TelegramPeers where
  owner_id : Int
  id : Int
  access_hash : Int
  type : String
  phone_number : String
  last_update_on : Nat
deriving DecidableEq, Repr

/-- A `telegram_usernames` row.  Note the table's primary key is
`(owner_id, id)` — the username is NOT part of the key. -/
structure TelegramUsernames where
  owner_id : Int
  id : Int
  username : String
deriving DecidableEq, Repr

/-- A `telegram_update_state` row: composite primary key `(owner_id, id)`. -/
structure TelegramUpdateState where
  owner_id : Int
  id : Int
  pts : Int
  qts : Int
  date : Nat
  seq : Int
deriving DecidableEq, Repr

/-- The routable address values built by `get_input_peer`
(pyrogram `InputPeerUser` / `InputPeerChat` / `InputPeerChannel`). -/
inductive InputPeer where
  | user (user_id : Int) (access_hash : Int)
  | chat (chat_id : Int)
  | channel (channel_id : Int) (access_hash : Int)
deriving DecidableEq, Repr

/-- Errors raised by the storage lookup paths: the `ValueError` for an
unsupported peer type, the `KeyError`s of the id/username lookups (the
spec's `NotFoundError`), and the "Username expired" `KeyError` (the
spec's `ExpiredError`). -/
inductive StorageError where
  | invalidPeerType (t : String)
  | idNotFound (peer_id : Int)
  | usernameNotFound (username : String)
  | usernameExpired (username : String)
deriving DecidableEq, Repr

/-- Pyrogram's `MAX_CHANNEL_ID` marker used by `utils.get_channel_id`. -/
def MAX_CHANNEL_ID : Int := -1000000000000

/-- Pyrogram's `utils.get_channel_id`: strip the `-100...` marker from a
channel peer id. -/
def get_channel_id (peer_id : Int) : Int :=
  MAX_CHANNEL_ID - peer_id

/-- Embedding of the module-level `get_input_peer` helper of
telegram_storage.py. -/
def get_input_peer (peer_id : Int) (access_hash : Int) (peer_type : String) :
    Except StorageError InputPeer :=
  if peer_type = "user" ∨ peer_type = "bot" then
    .ok (.user peer_id access_hash)
  else if peer_type = "group" then
    .ok (.chat (-peer_id))
  else if peer_type = "channel" ∨ peer_type = "supergroup" then
    .ok (.channel (get_channel_id peer_id) access_hash)
  else
    .error (.invalidPeerType peer_type)

/-- Key of a peers row (the composite primary key `(owner_id, id)`). -/
def peerKey (r : TelegramPeers) : Int × Int :=
  (r.owner_id, r.id)

/-- The deduplication loop of `TelegramPeers.update_many`: keep the FIRST
row for each `(owner_id, id)` key (later duplicates in the same call are
dropped).  The `owner_id`/`id` null checks of the source never fire in
the embedding because the fields are not optional. -/
def dedupePeers (values : List TelegramPeers) : List TelegramPeers :=
  (values.foldl
    (fun (acc : List TelegramPeers × List (Int × Int)) v =>
      if peerKey v ∈ acc.2 then acc else (acc.1 ++ [v], acc.2 ++ [peerKey v]))
    ([], [])).1

/-- One row of the PostgreSQL `INSERT ... ON CONFLICT (owner_id, id) DO
UPDATE` upsert: update `access_hash`, `type`, `phone_number` and
`last_update_on` of the row holding the key in place when the key exists
(the primary key admits at most one such row), append otherwise. -/
def mergePeerRow (r v : TelegramPeers) : TelegramPeers :=
  { r with access_hash := v.access_hash, type := v.type,
           phone_number := v.phone_number,
           last_update_on := v.last_update_on }

def upsertPeerRow : List TelegramPeers → TelegramPeers → List TelegramPeers
  | [], v => [v]
  | r :: rest, v =>
    if peerKey r = peerKey v then mergePeerRow r v :: rest
    else r :: upsertPeerRow rest v

/-- Embedding of `TelegramPeers.update_many`: dedupe by the composite key
keeping first occurrences, then upsert every surviving row. -/
def TelegramPeers.update_many (values : List TelegramPeers)
    (table : List TelegramPeers) : List TelegramPeers :=
  (dedupePeers values).foldl upsertPeerRow table

/-- Key of a usernames row — the table's primary key `(owner_id, id)`,
which does not include the username. -/
def usernameKey (r : TelegramUsernames) : Int × Int :=
  (r.owner_id, r.id)

/-- The deduplication loop of `TelegramUsernames.update_many`: keep the
FIRST row per `(owner_id, id)`; all further usernames of the same peer in
the same call are silently dropped. -/
def dedupeUsernames (values : List TelegramUsernames) : List TelegramUsernames :=
  (values.foldl
    (fun (acc : List TelegramUsernames × List (Int × Int)) v =>
      if usernameKey v ∈ acc.2 then acc
      else (acc.1 ++ [v], acc.2 ++ [usernameKey v]))
    ([], [])).1

/-- One row of the usernames upsert: `ON CONFLICT (owner_id, id) DO
UPDATE SET username = excluded.username` (at most one row can hold the
key, by the primary-key constraint). -/
def upsertUsernameRow : List TelegramUsernames → TelegramUsernames → List TelegramUsernames
  | [], v => [v]
  | r :: rest, v =>
    if usernameKey r = usernameKey v then
      { r with username := v.username } :: rest
    else r :: upsertUsernameRow rest v

/-- Embedding of `TelegramUsernames.update_many`. -/
def TelegramUsernames.update_many (values : List TelegramUsernames)
    (table : List TelegramUsernames) : List TelegramUsernames :=
  (dedupeUsernames values).foldl upsertUsernameRow table

/-- `PostgresStorage.USERNAMES_TTL = 8 * 60 * 60` seconds. -/
def USERNAMES_TTL : Nat := 8 * 60 * 60

/-- `PostgresStorage.BATCH_TIME = 5.0` seconds (the clock is modelled in
whole seconds). -/
def BATCH_TIME : Nat := 5

/-- `PostgresStorage.BATCH_SIZE = 50` update operations. -/
def BATCH_SIZE : Nat := 50

/-- `PostgresStorage.PEERS_THRESHOLD = 25` pending peers. -/
def PEERS_THRESHOLD : Nat := 25

/-- In-memory and durable state of one `PostgresStorage` instance: the
read caches, the pending write buffers, the batching counters, and the
durable `telegram_peers` / `telegram_usernames` tables (lists of rows, so
duplicate rows are expressible). -/
structure StorageState where
  telegram_id : Int
  peer_cache : List (Int × TelegramPeers)
  username_cache : List (String × Int)
  phone_cache : List (String × Int)
  pending_peers : List (Int × TelegramPeers)
  pending_usernames : List (Int × List String)
  last_flush_time : Nat
  operation_count : Nat
  db_peers : List TelegramPeers
  db_usernames : List TelegramUsernames
deriving DecidableEq, Repr

/-- A fresh `PostgresStorage` as built by `__init__` (empty caches and
buffers, `last_flush_time = time.time()`), over existing durable
tables. -/
def initStorage (telegram_id : Int) (now : Nat) (db_peers : List TelegramPeers)
    (db_usernames : List TelegramUsernames) : StorageState :=
  ⟨telegram_id, [], [], [], [], [], now, 0, db_peers, db_usernames⟩

/-- Embedding of `PostgresStorage._should_flush`. -/
def should_flush (now : Nat) (st : StorageState) : Bool :=
  decide (st.operation_count ≥ BATCH_SIZE) ||
  decide (st.pending_peers.length ≥ PEERS_THRESHOLD) ||
  decide (now - st.last_flush_time ≥ BATCH_TIME)

/-- The durable-store write failure of a flush (an exception from the
database layer, the spec's `FlushError`). -/
inductive FlushError where
  | dbWriteFailed
deriving DecidableEq, Repr

/-- The peers half of `_flush_batch`: upsert the pending peers inside one
transaction, then clear the buffer.  When the write raises
(`peersFail`), the transaction commits nothing and the clear is never
reached. -/
def flushPeersStep (peersFail : Bool) (st : StorageState) :
    Option FlushError × StorageState :=
  if st.pending_peers.isEmpty then (none, st)
  else if peersFail then (some .dbWriteFailed, st)
  else
    (none,
     { st with db_peers := TelegramPeers.update_many
                 (st.pending_peers.map Prod.snd) st.db_peers,
               pending_peers := [] })

/-- The username rows built by `_flush_batch` from the pending username
sets (insertion order stands in for Python's unspecified set iteration
order; no claim below depends on which element comes first beyond the
fact that only one row per peer survives the keyed upsert). -/
def pendingUsernameRows (telegram_id : Int)
    (pending : List (Int × List String)) : List TelegramUsernames :=
  pending.flatMap (fun pu => pu.2.map (fun u => ⟨telegram_id, pu.1, u⟩))

/-- The usernames half of `_flush_batch`. -/
def flushUsernamesStep (usernamesFail : Bool) (st : StorageState) :
    Option FlushError × StorageState :=
  if st.pending_usernames.isEmpty then (none, st)
  else if usernamesFail then (some .dbWriteFailed, st)
  else
    (none,
     { st with db_usernames := TelegramUsernames.update_many
                 (pendingUsernameRows st.telegram_id st.pending_usernames)
                 st.db_usernames,
               pending_usernames := [] })

/-- Embedding of `PostgresStorage._flush_batch`: skip unless forced or a
threshold is reached, skip when both buffers are empty, flush peers then
usernames (an exception propagates and the counters are not reset), then
reset the operation count and the flush clock. -/
def flush_batch (force : Bool) (now : Nat) (peersFail usernamesFail : Bool)
    (st : StorageState) : Option FlushError × StorageState :=
  if !force && !(should_flush now st) then (none, st)
  else if st.pending_peers.isEmpty && st.pending_usernames.isEmpty then (none, st)
  else
    match flushPeersStep peersFail st with
    | (some e, st1) => (some e, st1)
    | (none, st1) =>
      match flushUsernamesStep usernamesFail st1 with
      | (some e, st2) => (some e, st2)
      | (none, st2) => (none, { st2 with operation_count := 0, last_flush_time := now })

/-- Embedding of `PostgresStorage.save`: a forced flush. -/
def save (now : Nat) (peersFail usernamesFail : Bool) (st : StorageState) :
    Option FlushError × StorageState :=
  flush_batch true now peersFail usernamesFail st

/-- The body of the `update_peers` loop for one `(id, access_hash, type,
phone)` tuple: build the row (`last_update_on` defaults to now), refresh
the peer cache, the phone cache when the phone is non-empty (Python
truthiness of `str`), and overwrite the pending entry for the id. -/
def stepPeer (now : Nat) (st : StorageState) (p : Int × Int × String × String) :
    StorageState :=
  match p with
  | (peer_id, access_hash, peer_type, phone_number) =>
    let peer_obj : TelegramPeers :=
      ⟨st.telegram_id, peer_id, access_hash, peer_type, phone_number, now⟩
    let st1 := { st with peer_cache := dictSet st.peer_cache peer_id peer_obj }
    let st2 :=
      if phone_number ≠ "" then
        { st1 with phone_cache := dictSet st1.phone_cache phone_number peer_id }
      else st1
    { st2 with pending_peers := dictSet st2.pending_peers peer_id peer_obj }

/-- The mutation performed by `update_peers` under the batch lock:
process every tuple, then `operation_count += 1`. -/
def applyPeersBatch (now : Nat) (peers : List (Int × Int × String × String))
    (st : StorageState) : StorageState :=
  let st1 := peers.foldl (stepPeer now) st
  { st1 with operation_count := st1.operation_count + 1 }

/-- Embedding of `PostgresStorage.update_peers`: no-op on an empty batch,
otherwise mutate caches and pending buffer and run the non-forced flush
check. -/
def update_peers (now : Nat) (peersFail usernamesFail : Bool)
    (peers : List (Int × Int × String × String)) (st : StorageState) :
    Option FlushError × StorageState :=
  if peers.isEmpty then (none, st)
  else flush_batch false now peersFail usernamesFail (applyPeersBatch now peers st)

/-- Python `set.update`: append the new elements not already present,
keeping insertion order. -/
def setUpdate (cur : List String) (new : List String) : List String :=
  new.foldl (fun l u => if u ∈ l then l else l ++ [u]) cur

/-- Python's `str.lower()` on one character, restricted to the ASCII
range (Telegram usernames are ASCII handles; the model does not need the
full Unicode case map). -/
def pythonLowerChar (c : Char) : Char :=
  if 'A' ≤ c ∧ c ≤ 'Z' then Char.ofNat (c.toNat + 32) else c

/-- Python's `str.lower()` (ASCII fragment), used by the source as
`username.lower()` for the username cache key. -/
def pythonLower (s : String) : String :=
  ⟨s.data.map pythonLowerChar⟩

/-- The body of the `update_usernames` loop for one `(peer_id,
username_list)` pair: lowercase every username into the username cache
and merge the list into the pending set for the peer. -/
def stepUsername (st : StorageState) (pu : Int × List String) : StorageState :=
  match pu with
  | (peer_id, username_list) =>
    let st1 :=
      { st with username_cache :=
          (username_list.foldl (fun c (u : String) => dictSet c (pythonLower u) peer_id)
            st.username_cache) }
    let cur := (lookupA st1.pending_usernames peer_id).getD []
    { st1 with pending_usernames :=
        dictSet st1.pending_usernames peer_id (setUpdate cur username_list) }

/-- The mutation performed by `update_usernames` under the batch lock. -/
def applyUsernamesBatch (usernames : List (Int × List String))
    (st : StorageState) : StorageState :=
  let st1 := usernames.foldl stepUsername st
  { st1 with operation_count := st1.operation_count + 1 }

/-- Embedding of `PostgresStorage.update_usernames`. -/
def update_usernames (now : Nat) (peersFail usernamesFail : Bool)
    (usernames : List (Int × List String)) (st : StorageState) :
    Option FlushError × StorageState :=
  if usernames.isEmpty then (none, st)
  else flush_batch false now peersFail usernamesFail (applyUsernamesBatch usernames st)

/-- Embedding of `TelegramPeers.get_by_id` (the primary key guarantees at
most one matching row; the model returns the first). -/
def TelegramPeers.get_by_id (owner_id id : Int) (table : List TelegramPeers) :
    Option TelegramPeers :=
  table.find? (fun r => decide (r.owner_id = owner_id) && decide (r.id = id))

/-- The `ORDER BY last_update_on DESC LIMIT 1` pick of
`TelegramPeers.get_by_username`: a row with maximal `last_update_on`
(SQL leaves the order of ties unspecified; the model keeps the
earliest-listed maximal row). -/
def maxByLastUpdate : List TelegramPeers → Option TelegramPeers
  | [] => none
  | p :: rest =>
    match maxByLastUpdate rest with
    | none => some p
    | some q => if q.last_update_on > p.last_update_on then some q else some p

/-- Embedding of `TelegramPeers.get_by_username`: join peers and
usernames on `id` alone (the source's join condition does not constrain
the username row's owner), filter by the exact (case-sensitive) username
and the peers row's owner, newest `last_update_on` first, limit 1. -/
def TelegramPeers.get_by_username (owner_id : Int) (username : String)
    (db_peers : List TelegramPeers) (db_usernames : List TelegramUsernames) :
    Option TelegramPeers :=
  maxByLastUpdate (db_peers.filter (fun p =>
    decide (p.owner_id = owner_id) &&
    db_usernames.any (fun u => decide (u.username = username) && decide (u.id = p.id))))

/-- Embedding of `PostgresStorage.get_peer_by_id`: cache first, then the
durable table, caching the fetched row. -/
def get_peer_by_id (peer_id : Int) (st : StorageState) :
    Except StorageError InputPeer × StorageState :=
  match lookupA st.peer_cache peer_id with
  | some peer => (get_input_peer peer.id peer.access_hash peer.type, st)
  | none =>
    match TelegramPeers.get_by_id st.telegram_id peer_id st.db_peers with
    | none => (.error (.idNotFound peer_id), st)
    | some peer =>
      (get_input_peer peer.id peer.access_hash peer.type,
       { st with peer_cache := dictSet st.peer_cache peer_id peer })

/-- `abs(time.time() - peer.last_update_on)` over `Nat` instants. -/
def absDiff (a b : Nat) : Nat :=
  if b ≤ a then a - b else b - a

/-- Embedding of `PostgresStorage.get_peer_by_username`: on a cache hit
the same freshness bound `abs(now - last_update_on) <= USERNAMES_TTL` is
checked and a stale hit falls through to the durable path, which raises
"Username not found" when no row matches and "Username expired" when the
matched row is stale, caching a fresh result. -/
def get_peer_by_username (now : Nat) (username : String) (st : StorageState) :
    Except StorageError InputPeer × StorageState :=
  let username_lower := pythonLower username
  let cacheHit : Option TelegramPeers :=
    match lookupA st.username_cache username_lower with
    | some peer_id =>
      match lookupA st.peer_cache peer_id with
      | some peer =>
        if absDiff now peer.last_update_on ≤ USERNAMES_TTL then some peer else none
      | none => none
    | none => none
  match cacheHit with
  | some peer => (get_input_peer peer.id peer.access_hash peer.type, st)
  | none =>
    match TelegramPeers.get_by_username st.telegram_id username
        st.db_peers st.db_usernames with
    | none => (.error (.usernameNotFound username), st)
    | some peer =>
      if absDiff now peer.last_update_on > USERNAMES_TTL then
        (.error (.usernameExpired username), st)
      else
        (get_input_peer peer.id peer.access_hash peer.type,
         { st with peer_cache := dictSet st.peer_cache peer.id peer,
                   username_cache := dictSet st.username_cache username_lower peer.id })

/-- A database integrity error: the duplicate-key failure PostgreSQL
raises for a plain `INSERT` whose primary key already exists. -/
inductive DbError where
  | uniqueViolation
deriving DecidableEq, Repr

/-- Embedding of `TelegramUpdateState.fetch_all`: the tenant's rows
ordered by `date` ascending (stable insertion sort; SQL leaves ties
unspecified). -/
def insertByDate (r : TelegramUpdateState) :
    List TelegramUpdateState → List TelegramUpdateState
  | [] => [r]
  | x :: xs => if r.date < x.date then r :: x :: xs else x :: insertByDate r xs

/-- Stable sort by `date` ascending. -/
def sortByDate (l : List TelegramUpdateState) : List TelegramUpdateState :=
  l.foldr insertByDate []

/-- Embedding of `TelegramUpdateState.fetch_all`. -/
def TelegramUpdateState.fetch_all (owner_id : Int)
    (table : List TelegramUpdateState) : List TelegramUpdateState :=
  sortByDate (table.filter (fun r => decide (r.owner_id = owner_id)))

/-- Embedding of `TelegramUpdateState.delete`: remove the rows with the
given `(owner_id, id)`. -/
def TelegramUpdateState.delete (owner_id : Int) (value : Int)
    (table : List TelegramUpdateState) : List TelegramUpdateState :=
  table.filter (fun r => !(decide (r.owner_id = owner_id) && decide (r.id = value)))

/-- Embedding of `TelegramUpdateState.replace`: despite its name this is
a PLAIN `INSERT` (no `ON CONFLICT` clause), so it fails with a
duplicate-key error when a row with the same `(owner_id, id)` already
exists. -/
def TelegramUpdateState.replace (owner_id : Int) (value : TelegramUpdateState)
    (table : List TelegramUpdateState) : Except DbError (List TelegramUpdateState) :=
  if table.any (fun r => decide (r.owner_id = owner_id) && decide (r.id = value.id)) then
    .error .uniqueViolation
  else
    .ok (table ++ [⟨owner_id, value.id, value.pts, value.qts, value.date, value.seq⟩])

/-- The three shapes of the `value` argument of
`PostgresStorage.update_state` (the bare `object` sentinel, an `int`, or
a full `TelegramUpdateState`). -/
inductive UpdateStateArg where
  | noValue
  | stateId (i : Int)
  | state (s : TelegramUpdateState)

/-- Embedding of `PostgresStorage.update_state`: read-all / delete-one /
insert-one over the durable `telegram_update_state` table, returning the
fetched rows (if any) together with the table after the call. -/
def update_state (telegram_id : Int) (value : UpdateStateArg)
    (table : List TelegramUpdateState) :
    Except DbError (Option (List TelegramUpdateState) × List TelegramUpdateState) :=
  match value with
  | .noValue => .ok (some (TelegramUpdateState.fetch_all telegram_id table), table)
  | .stateId i => .ok (none, TelegramUpdateState.delete telegram_id i table)
  | .state s =>
    match TelegramUpdateState.replace telegram_id s table with
    | .error e => .error e
    | .ok t => .ok (none, t)

/-- C2 (failing-input evaluation): from a fresh storage,
`update_usernames [(7, ["alice", "bob"])]` followed by a forced flush
leaves exactly ONE `telegram_usernames` row for peer `7`, holding only
the first queued username — "bob" is silently dropped.  The table's
primary key is `(owner_id, id)` and `TelegramUsernames.update_many`
drops every further row with the same key, so the stored username set
cannot equal the given set whenever it has more than one element. -/
theorem c2_update_usernames_drops_rows :
    (save 0 false false
        (update_usernames 0 false false [(7, ["alice", "bob"])]
          (initStorage 1 0 [] [])).2).2.db_usernames = [⟨1, 7, "alice"⟩] ∧
    ((save 0 false false
        (update_usernames 0 false false [(7, ["alice", "bob"])]
          (initStorage 1 0 [] [])).2).2.db_usernames.filter
        (fun r => decide (r.username = "bob"))) = [] := by
  exact ⟨rfl, rfl⟩

/-- C4 (failing-input evaluation): writing a full checkpoint value twice
for the same `(owner_id, id)` makes the second `update_state` call fail
with a duplicate-key error instead of updating the row in place, because
`TelegramUpdateState.replace` issues a plain `INSERT` with no
`ON CONFLICT` clause.  The no-argument and integer branches behave as
claimed; the upsert branch does not. -/
theorem c4_update_state_duplicate_key :
    update_state 1 (.state ⟨99, 7, 10, 20, 100, 2⟩) [] =
      .ok (none, [⟨1, 7, 10, 20, 100, 2⟩]) ∧
    update_state 1 (.state ⟨99, 7, 11, 21, 101, 3⟩) [⟨1, 7, 10, 20, 100, 2⟩] =
      .error .uniqueViolation ∧
    update_state 1 .noValue [⟨1, 7, 10, 20, 100, 2⟩] =
      .ok (some [⟨1, 7, 10, 20, 100, 2⟩], [⟨1, 7, 10, 20, 100, 2⟩]) ∧
    update_state 1 (.stateId 7) [⟨1, 7, 10, 20, 100, 2⟩] = .ok (none, []) := by
  exact ⟨rfl, rfl, rfl, rfl⟩

theorem stepPeer_telegram_id (now : Nat) (st : StorageState)
    (p : Int × Int × String × String) :
    (stepPeer now st p).telegram_id = st.telegram_id := by
  obtain ⟨pid, h, t, ph⟩ := p
  unfold stepPeer
  by_cases hph : ph ≠ "" <;> simp [hph]

theorem foldl_stepPeer_telegram_id (now : Nat)
    (l : List (Int × Int × String × String)) (st : StorageState) :
    (l.foldl (stepPeer now) st).telegram_id = st.telegram_id := by
  induction l generalizing st with
  | nil => rfl
  | cons q rest ih => rw [List.foldl_cons, ih, stepPeer_telegram_id]

theorem stepPeer_peer_cache_self (now : Nat) (st : StorageState)
    (pid h : Int) (t ph : String) :
    lookupA (stepPeer now st (pid, h, t, ph)).peer_cache pid =
      some ⟨st.telegram_id, pid, h, t, ph, now⟩ := by
  unfold stepPeer
  by_cases hph : ph ≠ "" <;> simp [hph, lookupA_dictSet_self]

theorem stepPeer_peer_cache_ne (now : Nat) (st : StorageState)
    (q : Int × Int × String × String) (rid : Int) (hq : q.1 ≠ rid) :
    lookupA (stepPeer now st q).peer_cache rid = lookupA st.peer_cache rid := by
  obtain ⟨pid, h, t, ph⟩ := q
  unfold stepPeer
  by_cases hph : ph ≠ "" <;>
    simp [hph, lookupA_dictSet_ne _ _ _ _ (Ne.symm hq)]

theorem foldl_stepPeer_cache_ne (now : Nat)
    (l : List (Int × Int × String × String)) (st : StorageState) (rid : Int)
    (hl : ∀ q ∈ l, q.1 ≠ rid) :
    lookupA (l.foldl (stepPeer now) st).peer_cache rid =
      lookupA st.peer_cache rid := by
  induction l generalizing st with
  | nil => rfl
  | cons q rest ih =>
    rw [List.foldl_cons, ih _ (fun p hp => hl p (List.mem_cons_of_mem q hp)),
      stepPeer_peer_cache_ne now st q rid (hl q (List.mem_cons_self q rest))]

theorem flushPeersStep_peer_cache (pf : Bool) (st : StorageState) :
    (flushPeersStep pf st).2.peer_cache = st.peer_cache := by
  unfold flushPeersStep
  split
  · rfl
  · split
    · rfl
    · rfl

theorem flushUsernamesStep_peer_cache (uf : Bool) (st : StorageState) :
    (flushUsernamesStep uf st).2.peer_cache = st.peer_cache := by
  unfold flushUsernamesStep
  split
  · rfl
  · split
    · rfl
    · rfl

theorem flush_batch_peer_cache (f : Bool) (now : Nat) (pf uf : Bool)
    (st : StorageState) :
    (flush_batch f now pf uf st).2.peer_cache = st.peer_cache := by
  unfold flush_batch
  split
  · rfl
  · split
    · rfl
    · rcases hps : flushPeersStep pf st with ⟨o1, st1⟩
      have h1 : st1.peer_cache = st.peer_cache := by
        have hx := flushPeersStep_peer_cache pf st
        rw [hps] at hx
        exact hx
      cases o1 with
      | some e => exact h1
      | none =>
        rcases hus : flushUsernamesStep uf st1 with ⟨o2, st2⟩
        have h2 : st2.peer_cache = st1.peer_cache := by
          have hx := flushUsernamesStep_peer_cache uf st1
          rw [hus] at hx
          exact hx
        simp only [hus]
        cases o2 with
        | some e => exact h2.trans h1
        | none => exact h2.trans h1

/-- C3: read-your-writes — after `update_peers` with a batch whose last
entry for `peer_id` is `(peer_id, access_hash, type, phone)`, an
immediate `get_peer_by_id peer_id` returns the routable address built
from the just-written `(peer_id, access_hash, type)`, regardless of
whether the trailing flush check fired or even failed (the peer cache is
written under the batch lock before the flush and is never touched by a
flush). -/
theorem c3_read_your_writes (now : Nat) (pf uf : Bool) (st : StorageState)
    (l1 l2 : List (Int × Int × String × String)) (pid h : Int) (t ph : String)
    (hl2 : ∀ q ∈ l2, q.1 ≠ pid) :
    (get_peer_by_id pid
        (update_peers now pf uf (l1 ++ (pid, h, t, ph) :: l2) st).2).1 =
      get_input_peer pid h t := by
  have hne : (l1 ++ (pid, h, t, ph) :: l2).isEmpty = false := by
    simp
  simp only [update_peers, hne, Bool.false_eq_true, if_false]
  have hcache : lookupA
      (flush_batch false now pf uf
        (applyPeersBatch now (l1 ++ (pid, h, t, ph) :: l2) st)).2.peer_cache pid =
      some ⟨st.telegram_id, pid, h, t, ph, now⟩ := by
    rw [flush_batch_peer_cache]
    show lookupA
      ((l1 ++ (pid, h, t, ph) :: l2).foldl (stepPeer now) st).peer_cache pid = _
    rw [List.foldl_append, List.foldl_cons,
      foldl_stepPeer_cache_ne now l2 _ pid hl2,
      stepPeer_peer_cache_self, foldl_stepPeer_telegram_id]
  unfold get_peer_by_id
  rw [hcache]

/-- Witness for C3 at a concrete batch and fresh storage. -/
theorem c3_read_your_writes_witness :
    (∀ q ∈ [((4 : Int), (40 : Int), "group", "")], q.1 ≠ (7 : Int)) ∧
    (get_peer_by_id 7
        (update_peers 5 false false
          ([(3, 30, "user", "")] ++ (7, 99, "user", "") :: [(4, 40, "group", "")])
          (initStorage 1 0 [] [])).2).1 = get_input_peer 7 99 "user" :=
  ⟨by decide,
   c3_read_your_writes 5 false false (initStorage 1 0 [] [])
     [(3, 30, "user", "")] [(4, 40, "group", "")] 7 99 "user" "" (by decide)⟩

theorem peers_update_many_nil (table : List TelegramPeers) :
    TelegramPeers.update_many [] table = table := rfl

theorem usernames_update_many_nil (table : List TelegramUsernames) :
    TelegramUsernames.update_many [] table = table := rfl

theorem flush_batch_empty_pending (f : Bool) (now : Nat) (pf uf : Bool)
    (st : StorageState) (hp : st.pending_peers = [])
    (hu : st.pending_usernames = []) :
    flush_batch f now pf uf st = (none, st) := by
  unfold flush_batch
  by_cases h1 : (!f && !(should_flush now st)) = true
  · simp [h1]
  · simp [h1, hp, hu]

/-- A forced flush against a healthy store reports no error, drains both
pending buffers, and upserts the pending peers into the durable table. -/
theorem save_healthy (now : Nat) (st : StorageState) :
    (flush_batch true now false false st).1 = none ∧
    (flush_batch true now false false st).2.pending_peers = [] ∧
    (flush_batch true now false false st).2.pending_usernames = [] ∧
    (flush_batch true now false false st).2.db_peers =
      TelegramPeers.update_many (st.pending_peers.map Prod.snd) st.db_peers := by
  by_cases hp : st.pending_peers = []
  · by_cases hu : st.pending_usernames = []
    · rw [flush_batch_empty_pending true now false false st hp hu]
      simp [hp, hu, peers_update_many_nil]
    · simp [flush_batch, flushPeersStep, flushUsernamesStep, hp, hu,
        peers_update_many_nil]
  · by_cases hu : st.pending_usernames = []
    · simp [flush_batch, flushPeersStep, flushUsernamesStep, hp, hu]
    · simp [flush_batch, flushPeersStep, flushUsernamesStep, hp, hu]

/-- C5: when the durable-store write of a flush fails, the pending buffer
of the entity type that was not durably written is left intact — the
usernames buffer always survives a failed flush, and the peers buffer
either survives untouched (its own write failed, before any clearing) or
was already durably upserted (the failure came later, in the usernames
write) — and a subsequent forced `save()` against a healthy store drains
everything.  Queued data is never silently dropped by a failed flush. -/
theorem c5_flush_failure_keeps_buffers (f : Bool) (now now2 : Nat)
    (pf uf : Bool) (st : StorageState) (e : FlushError) (st' : StorageState)
    (hfail : flush_batch f now pf uf st = (some e, st')) :
    st'.pending_usernames = st.pending_usernames ∧
    (st'.pending_peers = st.pending_peers ∨
      (st'.pending_peers = [] ∧
       st'.db_peers = TelegramPeers.update_many
         (st.pending_peers.map Prod.snd) st.db_peers)) ∧
    (save now2 false false st').1 = none ∧
    (save now2 false false st').2.pending_peers = [] ∧
    (save now2 false false st').2.pending_usernames = [] := by
  have hretry := save_healthy now2 st'
  have hmain : st'.pending_usernames = st.pending_usernames ∧
      (st'.pending_peers = st.pending_peers ∨
        (st'.pending_peers = [] ∧
         st'.db_peers = TelegramPeers.update_many
           (st.pending_peers.map Prod.snd) st.db_peers)) := by
    by_cases h1 : (!f && !(should_flush now st)) = true
    · rw [flush_batch, if_pos h1] at hfail
      simp at hfail
    · by_cases hp : st.pending_peers = []
      · by_cases hu : st.pending_usernames = []
        · rw [flush_batch_empty_pending f now pf uf st hp hu] at hfail
          simp at hfail
        · by_cases huf : uf = true
          · simp [flush_batch, flushPeersStep, flushUsernamesStep,
              h1, hp, hu, huf] at hfail
            subst hfail
            exact ⟨rfl, Or.inl rfl⟩
          · have huf' : uf = false := by simpa using huf
            simp [flush_batch, flushPeersStep, flushUsernamesStep,
              h1, hp, hu, huf'] at hfail
      · by_cases hpf : pf = true
        · simp [flush_batch, flushPeersStep, h1, hp, hpf] at hfail
          subst hfail
          exact ⟨rfl, Or.inl rfl⟩
        · have hpf' : pf = false := by simpa using hpf
          by_cases hu : st.pending_usernames = []
          · simp [flush_batch, flushPeersStep, flushUsernamesStep,
              h1, hp, hpf', hu] at hfail
          · by_cases huf : uf = true
            · simp [flush_batch, flushPeersStep, flushUsernamesStep,
                h1, hp, hpf', hu, huf] at hfail
              subst hfail
              exact ⟨rfl, Or.inr ⟨rfl, rfl⟩⟩
            · have huf' : uf = false := by simpa using huf
              simp [flush_batch, flushPeersStep, flushUsernamesStep,
                h1, hp, hpf', hu, huf'] at hfail
  exact ⟨hmain.1, hmain.2, hretry.1, hretry.2.1, hretry.2.2.1⟩

/-- Witness for C5: a forced flush whose peers write fails leaves the
state — including the pending peers buffer — untouched, and a later
healthy `save()` drains it. -/
theorem c5_flush_failure_keeps_buffers_witness :
    flush_batch true 3 true false
      ⟨1, [], [], [], [(7, ⟨1, 7, 5, "user", "", 0⟩)], [], 0, 0, [], []⟩ =
      (some .dbWriteFailed,
        ⟨1, [], [], [], [(7, ⟨1, 7, 5, "user", "", 0⟩)], [], 0, 0, [], []⟩) ∧
    (save 9 false false
      (⟨1, [], [], [], [(7, ⟨1, 7, 5, "user", "", 0⟩)], [], 0, 0, [], []⟩ :
        StorageState)).2.pending_peers = [] :=
  ⟨by decide,
   (c5_flush_failure_keeps_buffers true 3 9 true false
     ⟨1, [], [], [], [(7, ⟨1, 7, 5, "user", "", 0⟩)], [], 0, 0, [], []⟩
     .dbWriteFailed
     ⟨1, [], [], [], [(7, ⟨1, 7, 5, "user", "", 0⟩)], [], 0, 0, [], []⟩
     (by decide)).2.2.2.1⟩

/-- The three flush thresholds of `_should_flush`, as a proposition. -/
def flushThresholdReached (now : Nat) (s : StorageState) : Prop :=
  BATCH_SIZE ≤ s.operation_count ∨ PEERS_THRESHOLD ≤ s.pending_peers.length ∨
  BATCH_TIME ≤ now - s.last_flush_time

instance flushThresholdReachedDecidable (now : Nat) (s : StorageState) :
    Decidable (flushThresholdReached now s) := by
  unfold flushThresholdReached
  exact inferInstance

theorem should_flush_iff (now : Nat) (s : StorageState) :
    should_flush now s = true ↔ flushThresholdReached now s := by
  simp [should_flush, flushThresholdReached, ge_iff_le, Bool.or_eq_true,
    decide_eq_true_eq]
  tauto

theorem flush_batch_not_triggered (now : Nat) (pf uf : Bool) (st : StorageState)
    (hs : should_flush now st = false) :
    flush_batch false now pf uf st = (none, st) := by
  unfold flush_batch
  simp [hs]

/-- A non-forced flush whose threshold check passes, over a healthy
store and a non-empty buffer pair, drains both buffers, resets the
counters and performs the keyed upserts. -/
theorem flush_batch_triggered (now : Nat) (st : StorageState)
    (hs : should_flush now st = true)
    (hne : (st.pending_peers.isEmpty && st.pending_usernames.isEmpty) = false) :
    (flush_batch false now false false st).1 = none ∧
    (flush_batch false now false false st).2.pending_peers = [] ∧
    (flush_batch false now false false st).2.pending_usernames = [] ∧
    (flush_batch false now false false st).2.operation_count = 0 ∧
    (flush_batch false now false false st).2.last_flush_time = now ∧
    (flush_batch false now false false st).2.db_peers =
      TelegramPeers.update_many (st.pending_peers.map Prod.snd) st.db_peers ∧
    (flush_batch false now false false st).2.db_usernames =
      (if st.pending_usernames.isEmpty then st.db_usernames
       else TelegramUsernames.update_many
         (pendingUsernameRows st.telegram_id st.pending_usernames)
         st.db_usernames) := by
  by_cases hp : st.pending_peers = []
  · by_cases hu : st.pending_usernames = []
    · rw [hp, hu] at hne
      simp at hne
    · simp [flush_batch, flushPeersStep, flushUsernamesStep, hs, hp, hu,
        peers_update_many_nil]
  · by_cases hu : st.pending_usernames = []
    · simp [flush_batch, flushPeersStep, flushUsernamesStep, hs, hp, hu]
    · simp [flush_batch, flushPeersStep, flushUsernamesStep, hs, hp, hu]

theorem stepPeer_pending_ne (now : Nat) (st : StorageState)
    (p : Int × Int × String × String) :
    (stepPeer now st p).pending_peers ≠ [] := by
  obtain ⟨pid, h, t, ph⟩ := p
  unfold stepPeer
  by_cases hph : ph ≠ "" <;> simp [hph, dictSet_ne_nil]

theorem foldl_stepPeer_pending_ne (now : Nat)
    (l : List (Int × Int × String × String)) (st : StorageState)
    (h : st.pending_peers ≠ []) :
    (l.foldl (stepPeer now) st).pending_peers ≠ [] := by
  induction l generalizing st with
  | nil => exact h
  | cons q rest ih =>
    rw [List.foldl_cons]
    exact ih _ (stepPeer_pending_ne now st q)

theorem applyPeersBatch_pending_ne (now : Nat)
    (peers : List (Int × Int × String × String)) (st : StorageState)
    (h : peers ≠ []) : (applyPeersBatch now peers st).pending_peers ≠ [] := by
  cases peers with
  | nil => exact absurd rfl h
  | cons q rest =>
    show (((q :: rest).foldl (stepPeer now) st)).pending_peers ≠ []
    rw [List.foldl_cons]
    exact foldl_stepPeer_pending_ne now rest _ (stepPeer_pending_ne now st q)

theorem stepUsername_pending_ne (st : StorageState) (pu : Int × List String) :
    (stepUsername st pu).pending_usernames ≠ [] := by
  obtain ⟨pid, ul⟩ := pu
  unfold stepUsername
  simp [dictSet_ne_nil]

theorem foldl_stepUsername_pending_ne (l : List (Int × List String))
    (st : StorageState) (h : st.pending_usernames ≠ []) :
    (l.foldl stepUsername st).pending_usernames ≠ [] := by
  induction l generalizing st with
  | nil => exact h
  | cons q rest ih =>
    rw [List.foldl_cons]
    exact ih _ (stepUsername_pending_ne st q)

theorem applyUsernamesBatch_pending_ne (usernames : List (Int × List String))
    (st : StorageState) (h : usernames ≠ []) :
    (applyUsernamesBatch usernames st).pending_usernames ≠ [] := by
  cases usernames with
  | nil => exact absurd rfl h
  | cons q rest =>
    show (((q :: rest).foldl stepUsername st)).pending_usernames ≠ []
    rw [List.foldl_cons]
    exact foldl_stepUsername_pending_ne rest _ (stepUsername_pending_ne st q)

/-- C9: after a (non-empty) `update_peers` or `update_usernames` call
with a healthy store, the pending buffers are flushed to the durable
tables if and only if, at that moment (after the in-lock mutation), the
operation count has reached `BATCH_SIZE`, or the pending peer count has
reached `PEERS_THRESHOLD`, or the time since the last flush has reached
`BATCH_TIME`; when no threshold is reached the call returns with the
mutation buffered in memory and nothing else changed. -/
theorem c9_flush_trigger_thresholds (now : Nat) (st : StorageState) :
    (∀ peers : List (Int × Int × String × String), peers ≠ [] →
      (flushThresholdReached now (applyPeersBatch now peers st) →
        (update_peers now false false peers st).2.pending_peers = [] ∧
        (update_peers now false false peers st).2.pending_usernames = [] ∧
        (update_peers now false false peers st).2.operation_count = 0 ∧
        (update_peers now false false peers st).2.last_flush_time = now ∧
        (update_peers now false false peers st).2.db_peers =
          TelegramPeers.update_many
            ((applyPeersBatch now peers st).pending_peers.map Prod.snd)
            (applyPeersBatch now peers st).db_peers) ∧
      (¬ flushThresholdReached now (applyPeersBatch now peers st) →
        (update_peers now false false peers st).2 = applyPeersBatch now peers st)) ∧
    (∀ usernames : List (Int × List String), usernames ≠ [] →
      (flushThresholdReached now (applyUsernamesBatch usernames st) →
        (update_usernames now false false usernames st).2.pending_peers = [] ∧
        (update_usernames now false false usernames st).2.pending_usernames = [] ∧
        (update_usernames now false false usernames st).2.operation_count = 0 ∧
        (update_usernames now false false usernames st).2.last_flush_time = now ∧
        (update_usernames now false false usernames st).2.db_usernames =
          TelegramUsernames.update_many
            (pendingUsernameRows (applyUsernamesBatch usernames st).telegram_id
              (applyUsernamesBatch usernames st).pending_usernames)
            (applyUsernamesBatch usernames st).db_usernames) ∧
      (¬ flushThresholdReached now (applyUsernamesBatch usernames st) →
        (update_usernames now false false usernames st).2 =
          applyUsernamesBatch usernames st)) := by
  constructor
  · intro peers hne
    have hpe : peers.isEmpty = false := by
      rw [← Bool.not_eq_true]
      simpa [List.isEmpty_iff] using hne
    have hupdate : update_peers now false false peers st =
        flush_batch false now false false (applyPeersBatch now peers st) := by
      simp [update_peers, hpe]
    constructor
    · intro hth
      have hs : should_flush now (applyPeersBatch now peers st) = true :=
        (should_flush_iff now _).2 hth
      have hpp : (applyPeersBatch now peers st).pending_peers.isEmpty = false := by
        rw [← Bool.not_eq_true]
        simpa [List.isEmpty_iff] using applyPeersBatch_pending_ne now peers st hne
      have hnb : ((applyPeersBatch now peers st).pending_peers.isEmpty &&
          (applyPeersBatch now peers st).pending_usernames.isEmpty) = false := by
        simp [hpp]
      have ht := flush_batch_triggered now (applyPeersBatch now peers st) hs hnb
      rw [hupdate]
      exact ⟨ht.2.1, ht.2.2.1, ht.2.2.2.1, ht.2.2.2.2.1, ht.2.2.2.2.2.1⟩
    · intro hth
      have hs : should_flush now (applyPeersBatch now peers st) = false := by
        rw [← Bool.not_eq_true]
        intro hcon
        exact hth ((should_flush_iff now _).1 hcon)
      rw [hupdate, flush_batch_not_triggered now false false _ hs]
  · intro usernames hne
    have hue : usernames.isEmpty = false := by
      rw [← Bool.not_eq_true]
      simpa [List.isEmpty_iff] using hne
    have hupdate : update_usernames now false false usernames st =
        flush_batch false now false false (applyUsernamesBatch usernames st) := by
      simp [update_usernames, hue]
    constructor
    · intro hth
      have hs : should_flush now (applyUsernamesBatch usernames st) = true :=
        (should_flush_iff now _).2 hth
      have huu : (applyUsernamesBatch usernames st).pending_usernames.isEmpty = false := by
        rw [← Bool.not_eq_true]
        simpa [List.isEmpty_iff] using
          applyUsernamesBatch_pending_ne usernames st hne
      have hnb : ((applyUsernamesBatch usernames st).pending_peers.isEmpty &&
          (applyUsernamesBatch usernames st).pending_usernames.isEmpty) = false := by
        simp [huu]
      have ht := flush_batch_triggered now (applyUsernamesBatch usernames st) hs hnb
      rw [hupdate]
      refine ⟨ht.2.1, ht.2.2.1, ht.2.2.2.1, ht.2.2.2.2.1, ?_⟩
      have hdb := ht.2.2.2.2.2.2
      rw [huu] at hdb
      simpa using hdb
    · intro hth
      have hs : should_flush now (applyUsernamesBatch usernames st) = false := by
        rw [← Bool.not_eq_true]
        intro hcon
        exact hth ((should_flush_iff now _).1 hcon)
      rw [hupdate, flush_batch_not_triggered now false false _ hs]

/-- Witness for C9: one call over the batch-size threshold flushes, one
call under every threshold stays buffered. -/
theorem c9_flush_trigger_thresholds_witness :
    ([((7 : Int), (5 : Int), "user", "")] ≠
      ([] : List (Int × Int × String × String))) ∧
    flushThresholdReached 2
      (applyPeersBatch 2 [(7, 5, "user", "")] ⟨1, [], [], [], [], [], 0, 49, [], []⟩) ∧
    (update_peers 2 false false [(7, 5, "user", "")]
      ⟨1, [], [], [], [], [], 0, 49, [], []⟩).2.pending_peers = [] ∧
    ¬ flushThresholdReached 2
      (applyPeersBatch 2 [(7, 5, "user", "")] ⟨1, [], [], [], [], [], 0, 0, [], []⟩) ∧
    (update_peers 2 false false [(7, 5, "user", "")]
      ⟨1, [], [], [], [], [], 0, 0, [], []⟩).2 =
      applyPeersBatch 2 [(7, 5, "user", "")] ⟨1, [], [], [], [], [], 0, 0, [], []⟩ :=
  ⟨by decide, by decide,
   (((c9_flush_trigger_thresholds 2 ⟨1, [], [], [], [], [], 0, 49, [], []⟩).1
      [(7, 5, "user", "")] (by decide)).1 (by decide)).1,
   by decide,
   ((c9_flush_trigger_thresholds 2 ⟨1, [], [], [], [], [], 0, 0, [], []⟩).1
      [(7, 5, "user", "")] (by decide)).2 (by decide)⟩

/-- The stored rows holding a given `(owner_id, id)` key. -/
def rowsForKey (k : Int × Int) (table : List TelegramPeers) : List TelegramPeers :=
  table.filter (fun r => decide (peerKey r = k))

/-- The primary-key invariant of the `telegram_peers` table: no two rows
share `(owner_id, id)`. -/
def peersWf (table : List TelegramPeers) : Prop :=
  (table.map peerKey).Nodup

instance peersWfDecidable (table : List TelegramPeers) : Decidable (peersWf table) := by
  unfold peersWf
  exact inferInstance

theorem rowsForKey_eq_nil_of_not_mem {k : Int × Int} {table : List TelegramPeers}
    (h : k ∉ table.map peerKey) : rowsForKey k table = [] := by
  rw [rowsForKey, List.filter_eq_nil_iff]
  intro r hr
  simp only [decide_eq_true_eq]
  intro hk
  exact h (hk ▸ List.mem_map_of_mem peerKey hr)

theorem peerKey_mergePeerRow (r v : TelegramPeers) :
    peerKey (mergePeerRow r v) = peerKey r := rfl

theorem mergePeerRow_eq_of_key {r v : TelegramPeers}
    (h : peerKey r = peerKey v) : mergePeerRow r v = v := by
  obtain ⟨ro, ri, rh, rt, rp, rl⟩ := r
  obtain ⟨vo, vi, vh, vt, vp, vl⟩ := v
  simp [peerKey, Prod.mk.injEq] at h
  simp [mergePeerRow, h.1, h.2]

theorem mem_map_peerKey_upsertPeerRow (table : List TelegramPeers)
    (v : TelegramPeers) (k : Int × Int) :
    k ∈ (upsertPeerRow table v).map peerKey ↔
      k = peerKey v ∨ k ∈ table.map peerKey := by
  induction table with
  | nil => simp [upsertPeerRow]
  | cons r rest ih =>
    by_cases hr : peerKey r = peerKey v
    · rw [upsertPeerRow, if_pos hr]
      simp only [List.map_cons, List.mem_cons, peerKey_mergePeerRow, hr]
      tauto
    · rw [upsertPeerRow, if_neg hr]
      simp only [List.map_cons, List.mem_cons]
      rw [ih]
      tauto

theorem peersWf_upsertPeerRow {table : List TelegramPeers}
    (h : peersWf table) (v : TelegramPeers) : peersWf (upsertPeerRow table v) := by
  induction table with
  | nil => simp [upsertPeerRow, peersWf]
  | cons r rest ih =>
    rw [peersWf, List.map_cons, List.nodup_cons] at h
    by_cases hr : peerKey r = peerKey v
    · rw [peersWf, upsertPeerRow, if_pos hr, List.map_cons, List.nodup_cons,
        peerKey_mergePeerRow]
      exact h
    · rw [peersWf, upsertPeerRow, if_neg hr, List.map_cons, List.nodup_cons]
      refine ⟨?_, ih h.2⟩
      intro hmem
      rcases (mem_map_peerKey_upsertPeerRow rest v (peerKey r)).1 hmem with h' | h'
      · exact hr h'
      · exact h.1 h'

theorem rowsForKey_upsertPeerRow_self {table : List TelegramPeers}
    (h : peersWf table) (v : TelegramPeers) :
    rowsForKey (peerKey v) (upsertPeerRow table v) = [v] := by
  induction table with
  | nil => simp [upsertPeerRow, rowsForKey]
  | cons r rest ih =>
    rw [peersWf, List.map_cons, List.nodup_cons] at h
    by_cases hr : peerKey r = peerKey v
    · rw [upsertPeerRow, if_pos hr, mergePeerRow_eq_of_key hr]
      have hrest : rowsForKey (peerKey v) rest = [] := by
        apply rowsForKey_eq_nil_of_not_mem
        rw [← hr]
        exact h.1
      rw [rowsForKey, List.filter_cons]
      simp only [decide_eq_true_eq]
      rw [if_pos trivial]
      rw [rowsForKey] at hrest
      rw [hrest]
    · rw [upsertPeerRow, if_neg hr]
      rw [rowsForKey, List.filter_cons]
      simp only [decide_eq_true_eq]
      rw [if_neg hr]
      exact ih h.2

theorem rowsForKey_upsertPeerRow_other (table : List TelegramPeers)
    (v : TelegramPeers) (k : Int × Int) (hk : k ≠ peerKey v) :
    rowsForKey k (upsertPeerRow table v) = rowsForKey k table := by
  induction table with
  | nil =>
    rw [upsertPeerRow, rowsForKey, rowsForKey, List.filter_cons]
    simp only [decide_eq_true_eq]
    rw [if_neg (fun hc => hk hc.symm)]
  | cons r rest ih =>
    by_cases hr : peerKey r = peerKey v
    · rw [upsertPeerRow, if_pos hr]
      rw [rowsForKey, rowsForKey, List.filter_cons, List.filter_cons]
      have hrk : ¬ (peerKey r = k) := fun hc => hk ((hr.symm.trans hc).symm)
      simp only [decide_eq_true_eq, peerKey_mergePeerRow]
      rw [if_neg hrk, if_neg hrk]
    · rw [upsertPeerRow, if_neg hr]
      rw [rowsForKey, rowsForKey, List.filter_cons, List.filter_cons]
      simp only [decide_eq_true_eq]
      by_cases hrk : peerKey r = k
      · rw [if_pos hrk, if_pos hrk]
        rw [rowsForKey, rowsForKey] at ih
        rw [ih]
      · rw [if_neg hrk, if_neg hrk]
        rw [rowsForKey, rowsForKey] at ih
        rw [ih]

theorem flushPeersStep_telegram_id (pf : Bool) (st : StorageState) :
    (flushPeersStep pf st).2.telegram_id = st.telegram_id := by
  unfold flushPeersStep
  split
  · rfl
  · split
    · rfl
    · rfl

theorem flushUsernamesStep_telegram_id (uf : Bool) (st : StorageState) :
    (flushUsernamesStep uf st).2.telegram_id = st.telegram_id := by
  unfold flushUsernamesStep
  split
  · rfl
  · split
    · rfl
    · rfl

theorem flush_batch_telegram_id (f : Bool) (now : Nat) (pf uf : Bool)
    (st : StorageState) :
    (flush_batch f now pf uf st).2.telegram_id = st.telegram_id := by
  unfold flush_batch
  split
  · rfl
  · split
    · rfl
    · rcases hps : flushPeersStep pf st with ⟨o1, st1⟩
      have h1 : st1.telegram_id = st.telegram_id := by
        have hx := flushPeersStep_telegram_id pf st
        rw [hps] at hx
        exact hx
      cases o1 with
      | some e => exact h1
      | none =>
        rcases hus : flushUsernamesStep uf st1 with ⟨o2, st2⟩
        have h2 : st2.telegram_id = st1.telegram_id := by
          have hx := flushUsernamesStep_telegram_id uf st1
          rw [hus] at hx
          exact hx
        simp only [hus]
        cases o2 with
        | some e => exact h2.trans h1
        | none => exact h2.trans h1

theorem stepPeer_db_peers (now : Nat) (st : StorageState)
    (p : Int × Int × String × String) :
    (stepPeer now st p).db_peers = st.db_peers := by
  obtain ⟨pid, h, t, ph⟩ := p
  unfold stepPeer
  by_cases hph : ph ≠ "" <;> simp [hph]

theorem foldl_stepPeer_db_peers (now : Nat)
    (l : List (Int × Int × String × String)) (st : StorageState) :
    (l.foldl (stepPeer now) st).db_peers = st.db_peers := by
  induction l generalizing st with
  | nil => rfl
  | cons q rest ih => rw [List.foldl_cons, ih, stepPeer_db_peers]

theorem applyPeersBatch_telegram_id (now : Nat)
    (peers : List (Int × Int × String × String)) (st : StorageState) :
    (applyPeersBatch now peers st).telegram_id = st.telegram_id :=
  foldl_stepPeer_telegram_id now peers st

theorem applyPeersBatch_db_peers (now : Nat)
    (peers : List (Int × Int × String × String)) (st : StorageState) :
    (applyPeersBatch now peers st).db_peers = st.db_peers :=
  foldl_stepPeer_db_peers now peers st

theorem stepPeer_pending (now : Nat) (st : StorageState) (pid h : Int)
    (t ph : String) :
    (stepPeer now st (pid, h, t, ph)).pending_peers =
      dictSet st.pending_peers pid ⟨st.telegram_id, pid, h, t, ph, now⟩ := by
  unfold stepPeer
  by_cases hph : ph ≠ "" <;> simp [hph]

theorem TelegramPeers.update_many_singleton (v : TelegramPeers)
    (table : List TelegramPeers) :
    TelegramPeers.update_many [v] table = upsertPeerRow table v := rfl

/-- A non-forced flush followed by a forced healthy flush leaves the
durable peers table holding exactly the keyed upsert of the pending
peers, whether or not the first flush fired. -/
theorem flush_then_forced_db_peers (now now2 : Nat) (s : StorageState) :
    (flush_batch true now2 false false
      (flush_batch false now false false s).2).2.db_peers =
      TelegramPeers.update_many (s.pending_peers.map Prod.snd) s.db_peers := by
  by_cases hs : should_flush now s = true
  · by_cases hp : s.pending_peers = []
    · by_cases hu : s.pending_usernames = []
      · rw [flush_batch_empty_pending false now false false s hp hu]
        exact (save_healthy now2 s).2.2.2
      · have ht := flush_batch_triggered now s hs
          (by simp [hp, hu])
        rw [flush_batch_empty_pending true now2 false false _ ht.2.1 ht.2.2.1]
        exact ht.2.2.2.2.2.1
    · have ht := flush_batch_triggered now s hs
        (by simp [hp])
      rw [flush_batch_empty_pending true now2 false false _ ht.2.1 ht.2.2.1]
      exact ht.2.2.2.2.2.1
  · have hs' : should_flush now s = false := by
      rw [← Bool.not_eq_true]
      exact hs
    rw [flush_batch_not_triggered now false false s hs']
    exact (save_healthy now2 s).2.2.2

theorem applyPeersBatch_single_pending (now : Nat) (st : StorageState)
    (pid h : Int) (t ph : String) (hp : st.pending_peers = []) :
    (applyPeersBatch now [(pid, h, t, ph)] st).pending_peers =
      [(pid, ⟨st.telegram_id, pid, h, t, ph, now⟩)] := by
  show (([(pid, h, t, ph)]).foldl (stepPeer now) st).pending_peers = _
  rw [List.foldl_cons, List.foldl_nil, stepPeer_pending, hp]
  simp [dictSet]

theorem applyPeersBatch_pair_pending (now : Nat) (st : StorageState)
    (pid h1 h2 : Int) (t ph : String) (hp : st.pending_peers = []) :
    (applyPeersBatch now [(pid, h1, t, ph), (pid, h2, t, ph)] st).pending_peers =
      [(pid, ⟨st.telegram_id, pid, h2, t, ph, now⟩)] := by
  show (([(pid, h1, t, ph), (pid, h2, t, ph)]).foldl (stepPeer now) st).pending_peers = _
  rw [List.foldl_cons, List.foldl_cons, List.foldl_nil, stepPeer_pending,
    stepPeer_telegram_id, stepPeer_pending, hp]
  simp [dictSet]

/-- One `update_peers` call for a single peer tuple followed by `save()`:
the durable table holds the keyed upsert of the single built row, the
pending buffer is drained, and the tenant id is unchanged. -/
theorem update_single_peer_then_save (now now2 : Nat) (st : StorageState)
    (pid h : Int) (t ph : String) (hp : st.pending_peers = []) :
    (save now2 false false
        (update_peers now false false [(pid, h, t, ph)] st).2).2.db_peers =
      upsertPeerRow st.db_peers ⟨st.telegram_id, pid, h, t, ph, now⟩ ∧
    (save now2 false false
        (update_peers now false false [(pid, h, t, ph)] st).2).2.pending_peers = [] ∧
    (save now2 false false
        (update_peers now false false [(pid, h, t, ph)] st).2).2.telegram_id =
      st.telegram_id := by
  have hupdate : update_peers now false false [(pid, h, t, ph)] st =
      flush_batch false now false false (applyPeersBatch now [(pid, h, t, ph)] st) := by
    simp [update_peers]
  refine ⟨?_, ?_, ?_⟩
  · rw [hupdate, save, flush_then_forced_db_peers,
      applyPeersBatch_single_pending now st pid h t ph hp,
      applyPeersBatch_db_peers]
    rw [List.map_cons, List.map_nil, TelegramPeers.update_many_singleton]
  · exact (save_healthy now2 _).2.1
  · rw [hupdate, save, flush_batch_telegram_id, flush_batch_telegram_id,
      applyPeersBatch_telegram_id]

/-- C8: flushing is idempotent and upserting.  (i) After a forced flush,
a second flush with no writes recorded in between returns immediately
with no error and no state change — the pending buffers are empty, so no
durable write happens.  (ii) Writing the same peer id twice with
different `access_hash` values in ONE batch leaves exactly one stored
row for `(owner_id, id)`, holding the later hash, and the table keeps
its no-duplicate-key invariant.  (iii) The same holds for two writes
separated by flushes: the stored row holds the most recent hash, never a
duplicate row. -/
theorem c8_flush_idempotent_and_upsert :
    (∀ (f : Bool) (now now2 : Nat) (pf uf : Bool) (st : StorageState),
      flush_batch f now2 pf uf (flush_batch true now false false st).2 =
        (none, (flush_batch true now false false st).2)) ∧
    (∀ (now now2 : Nat) (st : StorageState) (pid h1 h2 : Int) (t ph : String),
      st.pending_peers = [] → peersWf st.db_peers →
      rowsForKey (st.telegram_id, pid)
        ((save now2 false false
           (update_peers now false false
             [(pid, h1, t, ph), (pid, h2, t, ph)] st).2).2.db_peers) =
        [⟨st.telegram_id, pid, h2, t, ph, now⟩] ∧
      peersWf ((save now2 false false
           (update_peers now false false
             [(pid, h1, t, ph), (pid, h2, t, ph)] st).2).2.db_peers)) ∧
    (∀ (now now2 now3 now4 : Nat) (st : StorageState) (pid h1 h2 : Int)
        (t ph : String),
      st.pending_peers = [] → peersWf st.db_peers →
      rowsForKey (st.telegram_id, pid)
        ((save now4 false false
           (update_peers now3 false false [(pid, h2, t, ph)]
             (save now2 false false
               (update_peers now false false [(pid, h1, t, ph)] st).2).2).2).2.db_peers) =
        [⟨st.telegram_id, pid, h2, t, ph, now3⟩]) := by
  refine ⟨?_, ?_, ?_⟩
  · intro f now now2 pf uf st
    exact flush_batch_empty_pending f now2 pf uf _
      (save_healthy now st).2.1 (save_healthy now st).2.2.1
  · intro now now2 st pid h1 h2 t ph hp hwf
    have hupdate : update_peers now false false
        [(pid, h1, t, ph), (pid, h2, t, ph)] st =
        flush_batch false now false false
          (applyPeersBatch now [(pid, h1, t, ph), (pid, h2, t, ph)] st) := by
      simp [update_peers]
    have hdb : (save now2 false false
        (update_peers now false false
          [(pid, h1, t, ph), (pid, h2, t, ph)] st).2).2.db_peers =
        upsertPeerRow st.db_peers ⟨st.telegram_id, pid, h2, t, ph, now⟩ := by
      rw [hupdate, save, flush_then_forced_db_peers,
        applyPeersBatch_pair_pending now st pid h1 h2 t ph hp,
        applyPeersBatch_db_peers, List.map_cons, List.map_nil,
        TelegramPeers.update_many_singleton]
    constructor
    · rw [hdb]
      have hself := rowsForKey_upsertPeerRow_self hwf
        (⟨st.telegram_id, pid, h2, t, ph, now⟩ : TelegramPeers)
      simpa [peerKey] using hself
    · rw [hdb]
      exact peersWf_upsertPeerRow hwf _
  · intro now now2 now3 now4 st pid h1 h2 t ph hp hwf
    obtain ⟨hdb1, hpend1, htid1⟩ :=
      update_single_peer_then_save now now2 st pid h1 t ph hp
    obtain ⟨hdb2, _, _⟩ :=
      update_single_peer_then_save now3 now4
        (save now2 false false
          (update_peers now false false [(pid, h1, t, ph)] st).2).2
        pid h2 t ph hpend1
    rw [hdb2, hdb1, htid1]
    have hself := rowsForKey_upsertPeerRow_self
      (peersWf_upsertPeerRow hwf
        (⟨st.telegram_id, pid, h1, t, ph, now⟩ : TelegramPeers))
      (⟨st.telegram_id, pid, h2, t, ph, now3⟩ : TelegramPeers)
    simpa [peerKey] using hself

/-- Witness for C8 at a fresh storage: two hashes for peer 7 in one
batch, flushed, store exactly one row holding the later hash. -/
theorem c8_flush_idempotent_and_upsert_witness :
    (initStorage 1 0 [] []).pending_peers = [] ∧
    peersWf (initStorage 1 0 [] []).db_peers ∧
    rowsForKey (1, 7)
      ((save 6 false false
         (update_peers 5 false false [(7, 10, "user", ""), (7, 11, "user", "")]
           (initStorage 1 0 [] [])).2).2.db_peers) = [⟨1, 7, 11, "user", "", 5⟩] :=
  ⟨rfl, by decide,
   (c8_flush_idempotent_and_upsert.2.1 5 6 (initStorage 1 0 [] []) 7 10 11
     "user" "" rfl (by decide)).1⟩

/-- The module-level `SUPPORTED_PEER_TYPES` list of telegram_storage.py. -/
def SUPPORTED_PEER_TYPES : List String := ["user", "bot", "group", "channel", "supergroup"]

theorem get_input_peer_ok_of_supported (pid hash : Int) (t : String)
    (ht : t ∈ SUPPORTED_PEER_TYPES) :
    ∃ ip, get_input_peer pid hash t = .ok ip := by
  simp only [SUPPORTED_PEER_TYPES, List.mem_cons, List.mem_singleton,
    List.not_mem_nil, or_false] at ht
  rcases ht with rfl | rfl | rfl | rfl | rfl <;>
    simp [get_input_peer]

/-- C7: the username-freshness window.  (a) With no cached resolution, a
stored username whose peer row is older than `USERNAMES_TTL` fails with
the "Username expired" error even though the row exists; (b) a stored
resolution within the window succeeds (for a routable peer type);
(c) a cache hit applies the same freshness bound, so when the cached
resolution is stale and the stored row backing the username is stale
too, the lookup fails with exactly the stored path's expired error. -/
theorem c7_username_ttl_expiry (now : Nat) (st : StorageState) (username : String) :
    (∀ peer : TelegramPeers,
      lookupA st.username_cache (pythonLower username) = none →
      TelegramPeers.get_by_username st.telegram_id username
        st.db_peers st.db_usernames = some peer →
      USERNAMES_TTL < absDiff now peer.last_update_on →
      (get_peer_by_username now username st).1 =
        .error (.usernameExpired username)) ∧
    (∀ peer : TelegramPeers,
      lookupA st.username_cache (pythonLower username) = none →
      TelegramPeers.get_by_username st.telegram_id username
        st.db_peers st.db_usernames = some peer →
      absDiff now peer.last_update_on ≤ USERNAMES_TTL →
      peer.type ∈ SUPPORTED_PEER_TYPES →
      ∃ ip, (get_peer_by_username now username st).1 = .ok ip) ∧
    (∀ (pid : Int) (cpeer dpeer : TelegramPeers),
      lookupA st.username_cache (pythonLower username) = some pid →
      lookupA st.peer_cache pid = some cpeer →
      USERNAMES_TTL < absDiff now cpeer.last_update_on →
      TelegramPeers.get_by_username st.telegram_id username
        st.db_peers st.db_usernames = some dpeer →
      USERNAMES_TTL < absDiff now dpeer.last_update_on →
      (get_peer_by_username now username st).1 =
        .error (.usernameExpired username)) := by
  refine ⟨?_, ?_, ?_⟩
  · intro peer hcache hdb hstale
    simp [get_peer_by_username, hcache, hdb, Nat.not_le.2 hstale, hstale]
  · intro peer hcache hdb hfresh htype
    obtain ⟨ip, hip⟩ := get_input_peer_ok_of_supported peer.id peer.access_hash
      peer.type htype
    refine ⟨ip, ?_⟩
    simp [get_peer_by_username, hcache, hdb, Nat.not_lt.2 hfresh, hip]
  · intro pid cpeer dpeer hcache hpeer hcstale hdb hdstale
    simp [get_peer_by_username, hcache, hpeer, hdb, Nat.not_le.2 hcstale,
      hdstale]

/-- Witness for C7: an 8h-stale stored username fails expired, a fresh
one resolves, and a stale cached resolution over a stale stored row
fails with the same expired error. -/
theorem c7_username_ttl_expiry_witness :
    (get_peer_by_username 30000 "alice"
      ⟨1, [], [], [], [], [], 0, 0, [⟨1, 7, 5, "user", "", 0⟩],
        [⟨1, 7, "alice"⟩]⟩).1 = .error (.usernameExpired "alice") ∧
    (∃ ip, (get_peer_by_username 100 "alice"
      ⟨1, [], [], [], [], [], 0, 0, [⟨1, 7, 5, "user", "", 0⟩],
        [⟨1, 7, "alice"⟩]⟩).1 = .ok ip) ∧
    (get_peer_by_username 30000 "alice"
      ⟨1, [(7, ⟨1, 7, 5, "user", "", 0⟩)], [("alice", 7)], [], [], [], 0, 0,
        [⟨1, 7, 5, "user", "", 0⟩], [⟨1, 7, "alice"⟩]⟩).1 =
      .error (.usernameExpired "alice") :=
  ⟨(c7_username_ttl_expiry 30000
      ⟨1, [], [], [], [], [], 0, 0, [⟨1, 7, 5, "user", "", 0⟩],
        [⟨1, 7, "alice"⟩]⟩ "alice").1 ⟨1, 7, 5, "user", "", 0⟩
      rfl (by decide) (by decide),
   (c7_username_ttl_expiry 100
      ⟨1, [], [], [], [], [], 0, 0, [⟨1, 7, 5, "user", "", 0⟩],
        [⟨1, 7, "alice"⟩]⟩ "alice").2.1 ⟨1, 7, 5, "user", "", 0⟩
      rfl (by decide) (by decide) (by decide),
   (c7_username_ttl_expiry 30000
      ⟨1, [(7, ⟨1, 7, 5, "user", "", 0⟩)], [("alice", 7)], [], [], [], 0, 0,
        [⟨1, 7, 5, "user", "", 0⟩], [⟨1, 7, "alice"⟩]⟩ "alice").2.2 7
      ⟨1, 7, 5, "user", "", 0⟩ ⟨1, 7, 5, "user", "", 0⟩
      (by decide) rfl (by decide) (by decide) (by decide)⟩
